import Mathlib

/-
Shallow embedding of Admicail/Mud_Offline (src/src/main.rs), a single-player
text exploration engine.

Modelling conventions:
 - `IndexMap<String, T>` (insertion-ordered, unique keys) and
   `HashMap<String, T>` are both modelled as `List (String × T)` with
   first-match lookup.  `HashMap` iteration order in Rust is arbitrary; the
   list order stands in for one such order (no claim below depends on it).
 - Rust panics (`expect` in `current_room` / `current_room_mut`, indexing
   `self.world.items[&key]` at a missing key) are modelled by `Option`:
   a `none` result of an engine operation models a panic.
 - `println!` output is modelled as a `List String`, one entry per
   `println!` call.
 - The REPL loop (`loop_run`) and the `running` flag only drive I/O and are
   outside the modelled core, as are the actual file system calls; file
   contents seen by `load` are modelled by the `FileRead` type below.
-/

/-- Item record, src/src/main.rs lines 8-15.  `effects` models the
`HashMap<String, String>` of effect name to effect value. -/
structure Item where
  key : String
  name : String
  desc : String
  portable : Bool
  effects : List (String × String)
deriving DecidableEq

/-- Room record, src/src/main.rs lines 17-25. -/
structure Room where
  key : String
  name : String
  desc : String
  exits : List (String × String)
  items : List String
  flags : List (String × Bool)
deriving DecidableEq

/-- Player record, src/src/main.rs lines 27-32. -/
structure Player where
  name : String
  location : String
  inventory : List String
deriving DecidableEq

/-- World record, src/src/main.rs lines 34-38 (two `IndexMap`s). -/
structure World where
  rooms : List (String × Room)
  items : List (String × Item)
deriving DecidableEq

/-- Game state, src/src/main.rs lines 40-45.  The `running` flag only
controls the REPL loop (outside the modelled core) and is omitted. -/
structure Game where
  world : World
  player : Player
deriving DecidableEq

/-- Decidable equality for `Except`, used to evaluate the model on concrete
states. -/
instance {ε α : Type} [DecidableEq ε] [DecidableEq α] : DecidableEq (Except ε α) :=
  fun x y =>
    match x, y with
    | .ok a, .ok b =>
      if h : a = b then isTrue (by rw [h]) else isFalse (by intro hc; cases hc; exact h rfl)
    | .error a, .error b =>
      if h : a = b then isTrue (by rw [h]) else isFalse (by intro hc; cases hc; exact h rfl)
    | .ok _, .error _ => isFalse (by intro hc; cases hc)
    | .error _, .ok _ => isFalse (by intro hc; cases hc)

/-- First-match association-list lookup; models `HashMap::get` and
`IndexMap::get` (keys are unique in the Rust maps). -/
def lookupS {α : Type} : List (String × α) → String → Option α
  | [], _ => none
  | (k, v) :: rest, key => if k == key then some v else lookupS rest key

/-- Association-list insertion replacing an existing binding; models
`HashMap::insert`. -/
def insertA {α : Type} : List (String × α) → String → α → List (String × α)
  | [], key, v => [(key, v)]
  | (k, w) :: rest, key, v =>
    if k == key then (k, v) :: rest else (k, w) :: insertA rest key v

/-- Models Rust `str::to_lowercase` as used on command tokens and item
keys/names (src/src/main.rs lines 69, 73, 82, 85, 141).  `Char.toLower`
lowers ASCII letters only, which agrees with Rust on all ASCII input; the
spec's comparisons are over ASCII keys and directions. -/
def strLower (s : String) : String :=
  String.mk (s.data.map Char.toLower)

/-- Accumulator loop for `splitChar`. -/
def splitCharAux (sep : Char) : List Char → List Char → List String
  | [], acc => [String.mk acc.reverse]
  | c :: rest, acc =>
    if c == sep then String.mk acc.reverse :: splitCharAux sep rest []
    else splitCharAux sep rest (c :: acc)

/-- Models Rust `str::split(sep).collect::<Vec<_>>()` for a single-character
separator (src/src/main.rs line 254): splits at every occurrence, keeping
empty parts, and yields one part even for the empty string. -/
def splitChar (s : String) (sep : Char) : List String :=
  splitCharAux sep s.data []

/-- Flag read with default, modelling `room.flags.get(name).unwrap_or(&false)`
(src/src/main.rs lines 105, 154, 259). -/
def flagOf (room : Room) (name : String) : Bool :=
  (lookupS room.flags name).getD false

/-- Models `Game::current_room` (src/src/main.rs lines 60-62); `none` models
the `expect("room not found")` panic. -/
def current_room (g : Game) : Option Room :=
  lookupS g.world.rooms g.player.location

/-- Shared loop body of `find_item_here` / `find_item_inventory`
(src/src/main.rs lines 71-77 and 83-89): first key in the container list
whose item, looked up in the world item map, matches `token` (already
lowercased) by key or display name; returns that item's `key` field. -/
def findFirstMatch (w : World) (token : String) : List String → Option String
  | [] => none
  | k :: rest =>
    match lookupS w.items k with
    | some it =>
      if strLower it.key == token || strLower it.name == token then some it.key
      else findFirstMatch w token rest
    | none => findFirstMatch w token rest

/-- Models `Game::find_item_here` (src/src/main.rs lines 68-79).  In Rust it
calls `current_room` and would panic on a dangling location; here that case
is folded into `none` — callers (`cmd_take`) re-check `current_room` first. -/
def find_item_here (g : Game) (token : String) : Option String :=
  match current_room g with
  | none => none
  | some room => findFirstMatch g.world (strLower token) room.items

/-- Models `Game::find_item_inventory` (src/src/main.rs lines 81-91). -/
def find_item_inventory (g : Game) (token : String) : Option String :=
  findFirstMatch g.world (strLower token) g.player.inventory

/-- Models `Game::has_light` (src/src/main.rs lines 93-101). -/
def has_light (g : Game) : Bool :=
  g.player.inventory.any fun k =>
    match lookupS g.world.items k with
    | some it => (lookupS it.effects "lights").isSome
    | none => false

/-- Exit list line, src/src/main.rs lines 110-115 and 132-137. -/
def exitsLine (room : Room) : String :=
  if room.exits.isEmpty then "Salidas: ninguna"
  else "Salidas: " ++ String.intercalate ", " (room.exits.map Prod.fst)

/-- Underline of the room name, src/src/main.rs line 120:
`"-".repeat(room.name.len())` — `len()` counts UTF-8 bytes. -/
def underlineOf (name : String) : String :=
  String.mk (List.replicate name.utf8ByteSize '-')

/-- Optional visible-items line, src/src/main.rs lines 123-130. -/
def itemsLines (w : World) (room : Room) : List String :=
  if room.items.isEmpty then []
  else ["\nVes aquí: " ++ String.intercalate ", "
    (room.items.filterMap fun k => (lookupS w.items k).map Item.name)]

/-- Models `Game::cmd_look` (src/src/main.rs lines 103-138) as the list of
printed lines; `none` models the `current_room` panic. -/
def cmd_look (g : Game) : Option (List String) :=
  match current_room g with
  | none => none
  | some room =>
    if flagOf room "dark" && !(has_light g) then
      some ["Está muy oscuro. Apenas distingues siluetas.", exitsLine room]
    else
      some (["\n" ++ room.name, underlineOf room.name, room.desc]
        ++ itemsLines g.world room ++ [exitsLine room])

/-- Models the `can_unlock` closure in `Game::cmd_go`
(src/src/main.rs lines 156-163). -/
def canUnlock (g : Game) (curKey direction : String) : Bool :=
  g.player.inventory.any fun k =>
    match lookupS g.world.items k with
    | some it =>
      match lookupS it.effects "unlocks" with
      | some v => v == curKey ++ ":" ++ direction
      | none => false
    | none => false

/-- Models `self.world.rooms.get_mut(key)` followed by
`r.flags.insert(flag, b)` (src/src/main.rs lines 169-171 and 260-262);
a missing key is a no-op (the Rust `if let Some`). -/
def setRoomFlag : List (String × Room) → String → String → Bool → List (String × Room)
  | [], _, _, _ => []
  | (k, r) :: rest, key, flag, b =>
    if k == key then (k, { r with flags := insertA r.flags flag b }) :: rest
    else (k, r) :: setRoomFlag rest key flag b

/-- Models `Game::cmd_go` (src/src/main.rs lines 140-177). -/
def cmd_go (g : Game) (dir : Option String) : Option (Game × List String) :=
  match dir with
  | none => some (g, ["Uso: go <north|south|east|west|up|down>"])
  | some d =>
    match current_room g with
    | none => none
    | some cur =>
      match lookupS cur.exits (strLower d) with
      | none => some (g, ["No hay salida en esa dirección."])
      | some dest =>
        if flagOf cur ("locked_" ++ strLower d) then
          if !(canUnlock g cur.key (strLower d)) then
            some (g, ["La salida está bloqueada."])
          else
            match cmd_look
              { g with
                world := { g.world with
                  rooms := setRoomFlag g.world.rooms cur.key ("locked_" ++ strLower d) false },
                player := { g.player with location := dest } } with
            | none => none
            | some out =>
              some ({ g with
                world := { g.world with
                  rooms := setRoomFlag g.world.rooms cur.key ("locked_" ++ strLower d) false },
                player := { g.player with location := dest } },
                "Usas la llave y desbloqueas la salida." :: out)
        else
          match cmd_look { g with player := { g.player with location := dest } } with
          | none => none
          | some out => some ({ g with player := { g.player with location := dest } }, out)

/-- Removal of the first occurrence, modelling
`position(|k| k == &key)` + `remove(idx)` (src/src/main.rs lines 199-201
and 215-217); absent key leaves the list unchanged. -/
def removeFirst : List String → String → List String
  | [], _ => []
  | x :: xs, key => if x == key then xs else x :: removeFirst xs key

/-- Models `current_room_mut` followed by a mutation of the room's `items`
list: rewrites the (first) entry at the player's location. -/
def modifyRoomItems : List (String × Room) → String → (List String → List String) → List (String × Room)
  | [], _, _ => []
  | (k, r) :: rest, key, f =>
    if k == key then (k, { r with items := f r.items }) :: rest
    else (k, r) :: modifyRoomItems rest key f

/-- Models `Game::cmd_take` (src/src/main.rs lines 179-204). -/
def cmd_take (g : Game) (tok : Option String) : Option (Game × List String) :=
  match tok with
  | none => some (g, ["Uso: take <objeto>"])
  | some token =>
    match current_room g with
    | none => none
    | some room =>
      match findFirstMatch g.world (strLower token) room.items with
      | none => some (g, ["No ves eso aquí."])
      | some key =>
        if !(((lookupS g.world.items key).map Item.portable).getD false) then
          some (g, ["No puedes cargar eso."])
        else
          match lookupS g.world.items key with
          | none => none
          | some it =>
            some ({ g with
              world := { g.world with
                rooms := modifyRoomItems g.world.rooms g.player.location
                  (fun l => removeFirst l key) },
              player := { g.player with inventory := g.player.inventory ++ [key] } },
              ["Tomaste " ++ it.name ++ "."])

/-- Models `Game::cmd_drop` (src/src/main.rs lines 206-220). -/
def cmd_drop (g : Game) (tok : Option String) : Option (Game × List String) :=
  match tok with
  | none => some (g, ["Uso: drop <objeto>"])
  | some token =>
    match find_item_inventory g token with
    | none => some (g, ["No llevas eso."])
    | some key =>
      match current_room g with
      | none => none
      | some _ =>
        match lookupS g.world.items key with
        | none => none
        | some it =>
          some ({ g with
            world := { g.world with
              rooms := modifyRoomItems g.world.rooms g.player.location
                (fun l => l ++ [key]) },
            player := { g.player with inventory := removeFirst g.player.inventory key } },
            ["Dejaste " ++ it.name ++ "."])

/-- Models `Game::cmd_inventory` (src/src/main.rs lines 222-234); read-only. -/
def cmd_inventory (g : Game) : List String :=
  if g.player.inventory.isEmpty then ["No llevas nada."]
  else ["Llevas: " ++ String.intercalate ", "
    (g.player.inventory.filterMap fun k => (lookupS g.world.items k).map Item.name)]

/-- Models `Game::cmd_use` (src/src/main.rs lines 236-277). -/
def cmd_use (g : Game) (tok : Option String) : Option (Game × List String) :=
  match tok with
  | none => some (g, ["Uso: use <objeto>"])
  | some token =>
    match find_item_inventory g token with
    | none => some (g, ["No llevas eso."])
    | some key =>
      match lookupS g.world.items key with
      | none => none
      | some it =>
        if (lookupS it.effects "lights").isSome then
          match cmd_look g with
          | none => none
          | some out =>
            some (g, ("Alzas " ++ it.name ++ ". La luz revela tu entorno.") :: out)
        else
          match lookupS it.effects "unlocks" with
          | some tag =>
            match splitChar tag ':' with
            | [rkey, dir] =>
              match current_room g with
              | none => none
              | some cur =>
                if rkey == cur.key then
                  if flagOf cur ("locked_" ++ dir) then
                    some ({ g with
                      world := { g.world with
                        rooms := setRoomFlag g.world.rooms rkey ("locked_" ++ dir) false } },
                      ["Usas " ++ it.name ++ " y desbloqueas la salida " ++ dir ++ "."])
                  else some (g, ["Aquí no hay nada que desbloquear."])
                else some (g, ["No parece servir aquí."])
            | _ => some (g, ["La llave no está bien configurada."])
          | none => some (g, ["No pasa nada."])

/-- RoomState record, src/src/main.rs lines 373-377. -/
structure RoomState where
  items : List String
  flags : List (String × Bool)
deriving DecidableEq

/-- SaveData record, src/src/main.rs lines 379-383; its `rooms` field is a
`HashMap<String, RoomState>`, modelled as an association list (iteration
order is irrelevant: keys are unique and each key is applied once). -/
structure SaveData where
  player : Player
  rooms : List (String × RoomState)
deriving DecidableEq

/-- Snapshot built by `Game::save` (src/src/main.rs lines 295-311). -/
def mkSnapshot (g : Game) : SaveData :=
  { player := g.player,
    rooms := g.world.rooms.map fun p => (p.1, { items := p.2.items, flags := p.2.flags }) }

/-- Load-time error kinds of `Game::load` (src/src/main.rs lines 318-323):
the explicit nonexistent-path check, the `fs::read_to_string` error, and the
`serde_json::from_str` error. -/
inductive LoadErr
  | notFound
  | ioErr
  | parseErr
deriving DecidableEq

/-- What the file system hands to `load` for a given path: no file at all,
an unreadable file, content that does not parse as `SaveData`, or a
well-formed snapshot.  This models `Path::exists` + `fs::read_to_string` +
`serde_json::from_str` at src/src/main.rs lines 319-323. -/
inductive FileRead
  | notFound
  | ioErr
  | parseErr
  | ok (sd : SaveData)
deriving DecidableEq

/-- One snapshot-room application inside the `for (k, st) in snapshot.rooms`
loop of `Game::load` (src/src/main.rs lines 325-330): if the key exists in
the live world, overwrite that room's `items` and `flags`; otherwise ignore. -/
def applyRoomState : List (String × Room) → String → RoomState → List (String × Room)
  | [], _, _ => []
  | (k, r) :: rest, key, st =>
    if k == key then (k, { r with items := st.items, flags := st.flags }) :: rest
    else (k, r) :: applyRoomState rest key st

/-- State replacement performed by a successfully parsed `Game::load`
(src/src/main.rs lines 324-330): the player is replaced wholesale, then each
snapshot room overwrites the matching live room's mutable fields. -/
def applySnapshot (g : Game) (sd : SaveData) : Game :=
  { world := { g.world with
      rooms := sd.rooms.foldl (fun rs p => applyRoomState rs p.1 p.2) g.world.rooms },
    player := sd.player }

/-- Models `Game::load` (src/src/main.rs lines 318-334).  The three error
exits happen before any state is touched; on success the snapshot is applied
and `cmd_look` runs on the new state (`none` models its panic). -/
def loadGame (g : Game) (path : String) (fr : FileRead) : Option (Game × Except LoadErr (List String)) :=
  match fr with
  | .notFound => some (g, .error .notFound)
  | .ioErr => some (g, .error .ioErr)
  | .parseErr => some (g, .error .parseErr)
  | .ok sd =>
    match cmd_look (applySnapshot g sd) with
    | none => none
    | some out =>
      some (applySnapshot g sd, .ok (("Juego cargado desde " ++ path) :: out))

/-- File produced by `Game::save` (src/src/main.rs lines 294-316) as seen by
a later `load` of the same path: `serde_json::from_str` inverts
`serde_json::to_string_pretty` on `SaveData` (serde library guarantee), so
the parsed content of the written file is the snapshot itself. -/
def savedFile (g : Game) : FileRead :=
  FileRead.ok (mkSnapshot g)

/-- JSON string literal (content escaping is immaterial to every claim). -/
def jsonStr (s : String) : String := "\"" ++ s ++ "\""

/-- JSON array of strings. -/
def jsonStrList (l : List String) : String :=
  "[" ++ String.intercalate ", " (l.map jsonStr) ++ "]"

/-- JSON object of booleans. -/
def jsonFlags (l : List (String × Bool)) : String :=
  "\x7b" ++ String.intercalate ", "
    (l.map fun p => jsonStr p.1 ++ ": " ++ (if p.2 then "true" else "false")) ++ "\x7d"

/-- Stands for `serde_json::to_string_pretty(&snapshot)` at
src/src/main.rs line 312: a complete field-tagged textual document.  Its
exact formatting is immaterial to the claims below; what matters is that
`save` writes one complete document (and that it differs from unrelated old
file content). -/
def serializeSave (sd : SaveData) : String :=
  "\x7b \"player\": \x7b \"name\": " ++ jsonStr sd.player.name
    ++ ", \"location\": " ++ jsonStr sd.player.location
    ++ ", \"inventory\": " ++ jsonStrList sd.player.inventory
    ++ " \x7d, \"rooms\": \x7b "
    ++ String.intercalate ", " (sd.rooms.map fun p =>
        jsonStr p.1 ++ ": \x7b \"items\": " ++ jsonStrList p.2.items
          ++ ", \"flags\": " ++ jsonFlags p.2.flags ++ " \x7d")
    ++ " \x7d \x7d"

/-- Primitive file-system effects of `std::fs::write` as called by
`Game::save` at src/src/main.rs line 313: `fs::write` opens the destination
with truncation and then writes the data in place — there is no temporary
file and no rename. -/
inductive WriteStep
  | truncate
  | writeAll (data : String)
deriving DecidableEq

/-- Effect of one write step on the current file content. -/
def applyWrite (content : String) (s : WriteStep) : String :=
  match s with
  | .truncate => ""
  | .writeAll d => content ++ d

/-- File content after a prefix of write steps, starting from `old`;
a crash is modelled as stopping after any prefix of the steps. -/
def fileAfter (old : String) (steps : List WriteStep) : String :=
  steps.foldl applyWrite old

/-- The write-step sequence performed by `Game::save` (src/src/main.rs
lines 312-313): truncate the destination in place, then write the serialized
snapshot. -/
def saveWriteSteps (g : Game) : List WriteStep :=
  [.truncate, .writeAll (serializeSave (mkSnapshot g))]

/-- One engine operation, as dispatched by the REPL loop
(src/src/main.rs lines 356-368); `load` carries what the file system
returns for the fixed path. -/
inductive Op
  | look
  | go (d : Option String)
  | take (t : Option String)
  | dropIt (t : Option String)
  | inv
  | useIt (t : Option String)
  | save
  | load (fr : FileRead)

/-- State transition of one operation, discarding output; `none` models a
panic inside the operation.  `save` never mutates engine state
(src/src/main.rs lines 294-316); `inv` and `look` are read-only. -/
def step (g : Game) (op : Op) : Option Game :=
  match op with
  | .look => (cmd_look g).map fun _ => g
  | .go d => (cmd_go g d).map Prod.fst
  | .take t => (cmd_take g t).map Prod.fst
  | .dropIt t => (cmd_drop g t).map Prod.fst
  | .inv => some g
  | .useIt t => (cmd_use g t).map Prod.fst
  | .save => some g
  | .load fr => (loadGame g "save.json" fr).map Prod.fst

/-- Sequential execution of operations; any panic aborts the run. -/
def steps (g : Game) : List Op → Option Game
  | [] => some g
  | op :: rest =>
    match step g op with
    | none => none
    | some g1 => steps g1 rest

/-- True for every operation except `load`. -/
def noLoad : Op → Bool
  | .load _ => false
  | _ => true

/-- True exactly for `take` and `drop` operations. -/
def isTakeDrop : Op → Bool
  | .take _ => true
  | .dropIt _ => true
  | _ => false

/-- Well-formedness from the data model (spec section 3): the world's item
mapping is keyed by the item's own key, so each entry maps `k` to the item
whose `key` field is `k`.  `build_world` establishes this
(src/src/main.rs lines 387-427: every insert uses the item's key). -/
def itemsKeyConsistent (w : World) : Bool :=
  w.items.all fun p => p.2.key == p.1

/-- Well-formedness from the data model (spec section 3) for the room
mapping; `build_world` establishes this (src/src/main.rs lines 458-461:
`rooms.insert(room.key.clone(), room)`). -/
def roomsKeyConsistent (w : World) : Bool :=
  w.rooms.all fun p => p.2.key == p.1

/-- The player's location resolves to an existing room. -/
def locValid (g : Game) : Prop :=
  (lookupS g.world.rooms g.player.location).isSome

instance (g : Game) : Decidable (locValid g) := by
  unfold locValid; infer_instance

/-- Flag `f` of the room stored at key `rk` reads back false (or the room or
flag is absent). -/
def flagFalseAtL (rooms : List (String × Room)) (rk f : String) : Prop :=
  ∀ r, lookupS rooms rk = some r → flagOf r f = false

/-- Same, on a game state. -/
def flagFalseAt (g : Game) (rk f : String) : Prop :=
  flagFalseAtL g.world.rooms rk f

/-- Multiset of item keys sitting in rooms: total count of `k` across all
room `items` lists. -/
def roomsCount : List (String × Room) → String → Nat
  | [], _ => 0
  | (_, r) :: rest, k => r.items.count k + roomsCount rest k

/-- Total number of containers holding key `k`: room occurrences plus
inventory occurrences. -/
def containerCount (g : Game) (k : String) : Nat :=
  roomsCount g.world.rooms k + g.player.inventory.count k

/-- Concatenation of all room item lists. -/
def roomKeysList : List (String × Room) → List String
  | [] => []
  | (_, r) :: rest => r.items ++ roomKeysList rest

/-- Every item key occurring in some container. -/
def allItemKeys (g : Game) : List String :=
  roomKeysList g.world.rooms ++ g.player.inventory

/-- The containment invariant (spec section 3, first bullet): every item key
present in any room's `items` or in the inventory exists in the world's item
mapping and belongs to exactly one container — its total multiplicity across
all room lists and the inventory is exactly 1 (this also rules out duplicate
inventory keys). -/
def containInv (g : Game) : Bool :=
  (allItemKeys g).all fun k =>
    containerCount g k == 1 && (lookupS g.world.items k).isSome

/-- Models `build_world` (src/src/main.rs lines 385-464). -/
def build_world : World :=
  { items :=
      [("torch",
        { key := "torch", name := "antorcha",
          desc := "Una antorcha de madera. Aporta luz.",
          portable := true, effects := [("lights", "true")] }),
       ("key_gate",
        { key := "key_gate", name := "llave vieja",
          desc := "Una llave oxidada con una runa.",
          portable := true, effects := [("unlocks", "narrow_passage:north")] }),
       ("note",
        { key := "note", name := "nota arrugada",
          desc := "Dice: \x27La luz revela lo que temes.\x27",
          portable := true, effects := [] }),
       ("altar",
        { key := "altar", name := "altar de piedra",
          desc := "Un altar frío y pesado. No puedes cargarlo.",
          portable := false, effects := [] })],
    rooms :=
      [("cave_entrance",
        { key := "cave_entrance", name := "Entrada de la Cueva",
          desc := "El viento helado sopla tras de ti. Un pasaje oscuro se interna hacia el norte.",
          exits := [("north", "narrow_passage")],
          items := ["note", "torch"], flags := [] }),
       ("narrow_passage",
        { key := "narrow_passage", name := "Pasadizo Estrecho",
          desc := "Las paredes se cierran a tu alrededor. Al norte ves una reja; al sur, la salida.",
          exits := [("south", "cave_entrance"), ("north", "ancient_chamber")],
          items := ["key_gate"],
          flags := [("dark", true), ("locked_north", true)] }),
       ("ancient_chamber",
        { key := "ancient_chamber", name := "Cámara Ancestral",
          desc := "Una sala amplia con grabados antiguos. Un altar domina el centro.",
          exits := [("south", "narrow_passage")],
          items := ["altar"], flags := [] })] }

/-- Models `Game::new(build_world())` (src/src/main.rs lines 48-58, 466-469). -/
def buildGame : Game :=
  { world := build_world,
    player := { name := "Hero", location := "cave_entrance", inventory := [] } }

/-- Concrete witness state: the player in the narrow passage holding the
gate key (reachable: take torch, go north, take key, drop torch — here the
torch is left behind for darkness scenarios). -/
def gPassageKey : Game :=
  { world := build_world,
    player := { name := "Hero", location := "narrow_passage", inventory := ["key_gate"] } }

/-- Concrete witness state: same position holding the torch. -/
def gPassageTorch : Game :=
  { world := build_world,
    player := { name := "Hero", location := "narrow_passage", inventory := ["torch"] } }

/-- Concrete witness state: same position holding nothing. -/
def gPassageBare : Game :=
  { world := build_world,
    player := { name := "Hero", location := "narrow_passage", inventory := [] } }

/-- Concrete witness state: the player at the ancient chamber (where the
non-portable altar sits). -/
def gChamber : Game :=
  { world := build_world,
    player := { name := "Hero", location := "ancient_chamber", inventory := [] } }

/-- The state after `take torch` from the initial state. -/
def gAfterTake : Game :=
  { world := { build_world with rooms :=
      [("cave_entrance",
        { key := "cave_entrance", name := "Entrada de la Cueva",
          desc := "El viento helado sopla tras de ti. Un pasaje oscuro se interna hacia el norte.",
          exits := [("north", "narrow_passage")],
          items := ["note"], flags := [] }),
       ("narrow_passage",
        { key := "narrow_passage", name := "Pasadizo Estrecho",
          desc := "Las paredes se cierran a tu alrededor. Al norte ves una reja; al sur, la salida.",
          exits := [("south", "cave_entrance"), ("north", "ancient_chamber")],
          items := ["key_gate"],
          flags := [("dark", true), ("locked_north", true)] }),
       ("ancient_chamber",
        { key := "ancient_chamber", name := "Cámara Ancestral",
          desc := "Una sala amplia con grabados antiguos. Un altar domina el centro.",
          exits := [("south", "narrow_passage")],
          items := ["altar"], flags := [] })] },
    player := { name := "Hero", location := "cave_entrance", inventory := ["torch"] } }

/-- A hand-edited snapshot whose player location names no live room. -/
def badSnap : SaveData :=
  { player := { name := "Hero", location := "nowhere", inventory := [] }, rooms := [] }

/-- Custom world for ambiguous-token resolution: two distinct portable gems
sharing the display name "gema", plus an unrelated stone. -/
def wGems : World :=
  { items :=
      [("stone",
        { key := "stone", name := "piedra", desc := "Una piedra.",
          portable := true, effects := [] }),
       ("gem1",
        { key := "gem1", name := "gema", desc := "Una gema roja.",
          portable := true, effects := [] }),
       ("gem2",
        { key := "gem2", name := "gema", desc := "Una gema azul.",
          portable := true, effects := [] })],
    rooms :=
      [("hall",
        { key := "hall", name := "Sala", desc := "Una sala.",
          exits := [], items := ["stone", "gem1", "gem2"], flags := [] })] }

/-- Player in the gem hall carrying the second gem. -/
def gGems : Game :=
  { world := wGems,
    player := { name := "Hero", location := "hall", inventory := ["gem2"] } }

/-- The narrow-passage room record of `build_world`. -/
def narrowPassageRoom : Room :=
  (lookupS build_world.rooms "narrow_passage").getD
    { key := "", name := "", desc := "", exits := [], items := [], flags := [] }

/-- The gate-key item record of `build_world`. -/
def keyGateItem : Item :=
  (lookupS build_world.items "key_gate").getD
    { key := "", name := "", desc := "", portable := false, effects := [] }

/-- The gem-hall room record of `wGems`. -/
def hallRoom : Room :=
  (lookupS wGems.rooms "hall").getD
    { key := "", name := "", desc := "", exits := [], items := [], flags := [] }

/-- An item key matching the (not yet lowercased) token `token` in world
`w`, the way both finder loops test it (src/src/main.rs lines 72-75,
84-87). -/
def matchesLow (w : World) (token k : String) : Bool :=
  match lookupS w.items k with
  | some it => strLower it.key == token || strLower it.name == token
  | none => false

section Lemmas

lemma lookupS_insertA_self {α : Type} (l : List (String × α)) (k : String) (v : α) :
    lookupS (insertA l k v) k = some v := by
  induction l with
  | nil => simp [insertA, lookupS]
  | cons p rest ih =>
    obtain ⟨k0, v0⟩ := p
    by_cases h : k0 = k
    · simp [insertA, lookupS, h]
    · simp [insertA, lookupS, h, ih]

lemma lookupS_insertA_ne {α : Type} (l : List (String × α)) (k k2 : String) (v : α)
    (h : k ≠ k2) : lookupS (insertA l k v) k2 = lookupS l k2 := by
  induction l with
  | nil => simp [insertA, lookupS, h]
  | cons p rest ih =>
    obtain ⟨k0, v0⟩ := p
    by_cases hk : k0 = k
    · subst hk
      simp [insertA, lookupS, h]
    · simp [insertA, lookupS, hk, ih]

lemma lookupS_setRoomFlag (rooms : List (String × Room)) (key flag : String) (b : Bool)
    (x : String) :
    lookupS (setRoomFlag rooms key flag b) x =
      if x = key then (lookupS rooms x).map (fun r => { r with flags := insertA r.flags flag b })
      else lookupS rooms x := by
  induction rooms with
  | nil => by_cases h : x = key <;> simp [setRoomFlag, lookupS, h]
  | cons p rest ih =>
    obtain ⟨k0, r0⟩ := p
    by_cases hk : k0 = key
    · subst hk
      by_cases hx : k0 = x
      · subst hx
        simp [setRoomFlag, lookupS]
      · have hxk : ¬(x = k0) := fun hc => hx hc.symm
        simp [setRoomFlag, lookupS, hx, hxk, Ne.symm hx]
    · by_cases hx : k0 = x
      · subst hx
        have hxk : ¬(k0 = key) := hk
        simp [setRoomFlag, lookupS, hk, hxk]
      · simp [setRoomFlag, lookupS, hk, hx, ih]

lemma lookupS_modifyRoomItems (rooms : List (String × Room)) (key : String)
    (f : List String → List String) (x : String) :
    lookupS (modifyRoomItems rooms key f) x =
      if x = key then (lookupS rooms x).map (fun r => { r with items := f r.items })
      else lookupS rooms x := by
  induction rooms with
  | nil => by_cases h : x = key <;> simp [modifyRoomItems, lookupS, h]
  | cons p rest ih =>
    obtain ⟨k0, r0⟩ := p
    by_cases hk : k0 = key
    · subst hk
      by_cases hx : k0 = x
      · subst hx
        simp [modifyRoomItems, lookupS]
      · have hxk : ¬(x = k0) := fun hc => hx hc.symm
        simp [modifyRoomItems, lookupS, hx, hxk, Ne.symm hx]
    · by_cases hx : k0 = x
      · subst hx
        simp [modifyRoomItems, lookupS, hk]
      · simp [modifyRoomItems, lookupS, hk, hx, ih]

lemma cmd_look_isSome (g : Game) (h : (current_room g).isSome) :
    ∃ out, cmd_look g = some out := by
  unfold cmd_look
  match hc : current_room g with
  | none => rw [hc] at h; cases h
  | some room =>
    by_cases hd : flagOf room "dark" && !(has_light g) <;> simp [hd]

lemma applyRoomState_self_mem (rooms : List (String × Room)) (k : String) (r : Room)
    (hnd : (rooms.map Prod.fst).Nodup) (hmem : (k, r) ∈ rooms) :
    applyRoomState rooms k { items := r.items, flags := r.flags } = rooms := by
  induction rooms with
  | nil => cases hmem
  | cons p rest ih =>
    obtain ⟨k0, r0⟩ := p
    rcases List.mem_cons.mp hmem with hhead | htail
    · cases hhead
      simp [applyRoomState]
    · have hk : k ∈ rest.map Prod.fst := List.mem_map.mpr ⟨(k, r), htail, rfl⟩
      rw [List.map_cons] at hnd
      have hk0 : k0 ∉ rest.map Prod.fst := (List.nodup_cons.mp hnd).1
      have hne : ¬(k0 = k) := fun hc => hk0 (hc ▸ hk)
      have hnd2 : (rest.map Prod.fst).Nodup := (List.nodup_cons.mp hnd).2
      simp [applyRoomState, hne, ih hnd2 htail]

lemma foldl_applyRoomState_id (rooms : List (String × Room))
    (sub : List (String × RoomState))
    (h : ∀ p ∈ sub, applyRoomState rooms p.1 p.2 = rooms) :
    sub.foldl (fun rs p => applyRoomState rs p.1 p.2) rooms = rooms := by
  induction sub with
  | nil => rfl
  | cons p rest ih =>
    have h0 : applyRoomState rooms p.1 p.2 = rooms := h p (List.mem_cons_self p rest)
    have hrest : ∀ q ∈ rest, applyRoomState rooms q.1 q.2 = rooms :=
      fun q hq => h q (List.mem_cons_of_mem p hq)
    simp only [List.foldl_cons, h0]
    exact ih hrest

lemma applySnapshot_mkSnapshot (g : Game)
    (hnd : (g.world.rooms.map Prod.fst).Nodup) :
    applySnapshot g (mkSnapshot g) = g := by
  unfold applySnapshot mkSnapshot
  have hrooms :
      (g.world.rooms.map fun p => (p.1, ({ items := p.2.items, flags := p.2.flags } : RoomState))).foldl
        (fun rs p => applyRoomState rs p.1 p.2) g.world.rooms = g.world.rooms := by
    apply foldl_applyRoomState_id
    intro p hp
    rcases List.mem_map.mp hp with ⟨q, hq, hqe⟩
    obtain ⟨k, r⟩ := q
    cases hqe
    exact applyRoomState_self_mem g.world.rooms k r hnd hq
  simp only [hrooms]

lemma cmd_look_some_locValid (g : Game) (out : List String) (h : cmd_look g = some out) :
    locValid g := by
  unfold cmd_look at h
  cases hc : current_room g with
  | none => rw [hc] at h; cases h
  | some room =>
    unfold current_room at hc
    simp [locValid, hc]

lemma isSome_after_modify (rooms : List (String × Room)) (key : String)
    (f : List String → List String) (x : String)
    (h : (lookupS rooms x).isSome = true) :
    (lookupS (modifyRoomItems rooms key f) x).isSome = true := by
  rw [lookupS_modifyRoomItems]
  split
  · cases hl : lookupS rooms x with
    | none => rw [hl] at h; cases h
    | some r => simp
  · exact h

lemma isSome_after_setFlag (rooms : List (String × Room)) (key flag : String) (b : Bool)
    (x : String) (h : (lookupS rooms x).isSome = true) :
    (lookupS (setRoomFlag rooms key flag b) x).isSome = true := by
  rw [lookupS_setRoomFlag]
  split
  · cases hl : lookupS rooms x with
    | none => rw [hl] at h; cases h
    | some r => simp
  · exact h

lemma cmd_go_locValid (g : Game) (d : Option String) (g1 : Game) (out : List String)
    (hloc : locValid g) (h : cmd_go g d = some (g1, out)) : locValid g1 := by
  unfold cmd_go at h
  split at h
  · simp only [Option.some.injEq, Prod.mk.injEq] at h
    obtain ⟨hg, _⟩ := h
    subst hg; exact hloc
  · split at h
    · exact Option.noConfusion h
    · split at h
      · simp only [Option.some.injEq, Prod.mk.injEq] at h
        obtain ⟨hg, _⟩ := h
        subst hg; exact hloc
      · split at h
        · split at h
          · simp only [Option.some.injEq, Prod.mk.injEq] at h
            obtain ⟨hg, _⟩ := h
            subst hg; exact hloc
          · split at h
            · exact Option.noConfusion h
            · simp only [Option.some.injEq, Prod.mk.injEq] at h
              obtain ⟨hg, _⟩ := h
              subst hg
              exact cmd_look_some_locValid _ _ (by assumption)
        · split at h
          · exact Option.noConfusion h
          · simp only [Option.some.injEq, Prod.mk.injEq] at h
            obtain ⟨hg, _⟩ := h
            subst hg
            exact cmd_look_some_locValid _ _ (by assumption)

lemma cmd_take_locValid (g : Game) (t : Option String) (g1 : Game) (out : List String)
    (hloc : locValid g) (h : cmd_take g t = some (g1, out)) : locValid g1 := by
  unfold cmd_take at h
  split at h
  · simp only [Option.some.injEq, Prod.mk.injEq] at h
    obtain ⟨hg, _⟩ := h
    subst hg; exact hloc
  · split at h
    · exact Option.noConfusion h
    · split at h
      · simp only [Option.some.injEq, Prod.mk.injEq] at h
        obtain ⟨hg, _⟩ := h
        subst hg; exact hloc
      · split at h
        · simp only [Option.some.injEq, Prod.mk.injEq] at h
          obtain ⟨hg, _⟩ := h
          subst hg; exact hloc
        · split at h
          · exact Option.noConfusion h
          · simp only [Option.some.injEq, Prod.mk.injEq] at h
            obtain ⟨hg, _⟩ := h
            subst hg
            exact isSome_after_modify _ _ _ _ hloc

lemma cmd_drop_locValid (g : Game) (t : Option String) (g1 : Game) (out : List String)
    (hloc : locValid g) (h : cmd_drop g t = some (g1, out)) : locValid g1 := by
  unfold cmd_drop at h
  split at h
  · simp only [Option.some.injEq, Prod.mk.injEq] at h
    obtain ⟨hg, _⟩ := h
    subst hg; exact hloc
  · split at h
    · simp only [Option.some.injEq, Prod.mk.injEq] at h
      obtain ⟨hg, _⟩ := h
      subst hg; exact hloc
    · split at h
      · exact Option.noConfusion h
      · split at h
        · exact Option.noConfusion h
        · simp only [Option.some.injEq, Prod.mk.injEq] at h
          obtain ⟨hg, _⟩ := h
          subst hg
          exact isSome_after_modify _ _ _ _ hloc

lemma cmd_use_locValid (g : Game) (t : Option String) (g1 : Game) (out : List String)
    (hloc : locValid g) (h : cmd_use g t = some (g1, out)) : locValid g1 := by
  unfold cmd_use at h
  split at h
  · simp only [Option.some.injEq, Prod.mk.injEq] at h
    obtain ⟨hg, _⟩ := h
    subst hg; exact hloc
  · split at h
    · simp only [Option.some.injEq, Prod.mk.injEq] at h
      obtain ⟨hg, _⟩ := h
      subst hg; exact hloc
    · split at h
      · exact Option.noConfusion h
      · split at h
        · split at h
          · exact Option.noConfusion h
          · simp only [Option.some.injEq, Prod.mk.injEq] at h
            obtain ⟨hg, _⟩ := h
            subst hg; exact hloc
        · split at h
          · split at h
            · split at h
              · exact Option.noConfusion h
              · split at h
                · split at h
                  · simp only [Option.some.injEq, Prod.mk.injEq] at h
                    obtain ⟨hg, _⟩ := h
                    subst hg
                    exact isSome_after_setFlag _ _ _ _ _ hloc
                  · simp only [Option.some.injEq, Prod.mk.injEq] at h
                    obtain ⟨hg, _⟩ := h
                    subst hg; exact hloc
                · simp only [Option.some.injEq, Prod.mk.injEq] at h
                  obtain ⟨hg, _⟩ := h
                  subst hg; exact hloc
            · simp only [Option.some.injEq, Prod.mk.injEq] at h
              obtain ⟨hg, _⟩ := h
              subst hg; exact hloc
          · simp only [Option.some.injEq, Prod.mk.injEq] at h
            obtain ⟨hg, _⟩ := h
            subst hg; exact hloc

lemma loadGame_locValid (g : Game) (path : String) (fr : FileRead) (g1 : Game)
    (e : Except LoadErr (List String)) (hloc : locValid g)
    (h : loadGame g path fr = some (g1, e)) : locValid g1 := by
  unfold loadGame at h
  split at h
  · simp only [Option.some.injEq, Prod.mk.injEq] at h
    obtain ⟨hg, _⟩ := h
    subst hg; exact hloc
  · simp only [Option.some.injEq, Prod.mk.injEq] at h
    obtain ⟨hg, _⟩ := h
    subst hg; exact hloc
  · simp only [Option.some.injEq, Prod.mk.injEq] at h
    obtain ⟨hg, _⟩ := h
    subst hg; exact hloc
  · split at h
    · exact Option.noConfusion h
    · simp only [Option.some.injEq, Prod.mk.injEq] at h
      obtain ⟨hg, _⟩ := h
      subst hg
      exact cmd_look_some_locValid _ _ (by assumption)

lemma lookupS_all {α : Type} (l : List (String × α)) (q : String × α → Bool)
    (hall : ∀ e ∈ l, q e = true) (x : String) (v : α) (h : lookupS l x = some v) :
    q (x, v) = true := by
  induction l with
  | nil => cases h
  | cons e rest ih =>
    obtain ⟨k0, v0⟩ := e
    unfold lookupS at h
    by_cases hk : k0 = x
    · rw [if_pos (by simpa using hk)] at h
      injection h with hv
      subst hv
      have hq := hall (k0, v0) (List.mem_cons_self _ _)
      rw [hk] at hq
      exact hq
    · rw [if_neg (by simpa using hk)] at h
      exact ih (fun e he => hall e (List.mem_cons_of_mem _ he)) h

lemma roomsKC_lookup (w : World) (x : String) (r : Room)
    (hkc : roomsKeyConsistent w = true) (h : lookupS w.rooms x = some r) : r.key = x := by
  unfold roomsKeyConsistent at hkc
  rw [List.all_eq_true] at hkc
  have := lookupS_all w.rooms (fun p => p.2.key == p.1) hkc x r h
  simpa using this

lemma itemsKC_lookup (w : World) (x : String) (it : Item)
    (hkc : itemsKeyConsistent w = true) (h : lookupS w.items x = some it) : it.key = x := by
  unfold itemsKeyConsistent at hkc
  rw [List.all_eq_true] at hkc
  have := lookupS_all w.items (fun p => p.2.key == p.1) hkc x it h
  simpa using this

lemma flagFalseAtL_set_self (rooms : List (String × Room)) (k fl : String) :
    flagFalseAtL (setRoomFlag rooms k fl false) k fl := by
  intro r hr
  rw [lookupS_setRoomFlag] at hr
  rw [if_pos rfl] at hr
  cases hl : lookupS rooms k with
  | none => rw [hl] at hr; cases hr
  | some r0 =>
    rw [hl] at hr
    simp only [Option.map_some', Option.some.injEq] at hr
    subst hr
    unfold flagOf
    simp [lookupS_insertA_self]

lemma flagFalseAtL_setRoomFlag (rooms : List (String × Room)) (a fl rk f : String)
    (h : flagFalseAtL rooms rk f) : flagFalseAtL (setRoomFlag rooms a fl false) rk f := by
  intro r hr
  rw [lookupS_setRoomFlag] at hr
  split at hr
  · cases hl : lookupS rooms rk with
    | none => rw [hl] at hr; cases hr
    | some r0 =>
      rw [hl] at hr
      simp only [Option.map_some', Option.some.injEq] at hr
      subst hr
      unfold flagOf
      by_cases hff : f = fl
      · subst hff
        simp [lookupS_insertA_self]
      · rw [lookupS_insertA_ne _ _ _ _ (fun hc => hff hc.symm)]
        have := h r0 hl
        unfold flagOf at this
        exact this
  · exact h r hr

lemma flagFalseAtL_modify (rooms : List (String × Room)) (a : String)
    (f2 : List String → List String) (rk f : String)
    (h : flagFalseAtL rooms rk f) : flagFalseAtL (modifyRoomItems rooms a f2) rk f := by
  intro r hr
  rw [lookupS_modifyRoomItems] at hr
  split at hr
  · cases hl : lookupS rooms rk with
    | none => rw [hl] at hr; cases hr
    | some r0 =>
      rw [hl] at hr
      simp only [Option.map_some', Option.some.injEq] at hr
      subst hr
      exact h r0 hl
  · exact h r hr

lemma cmd_go_flagFalse (g : Game) (d : Option String) (g1 : Game) (out : List String)
    (rk f : String) (hff : flagFalseAt g rk f) (h : cmd_go g d = some (g1, out)) :
    flagFalseAt g1 rk f := by
  unfold cmd_go at h
  split at h
  · simp only [Option.some.injEq, Prod.mk.injEq] at h
    obtain ⟨hg, _⟩ := h
    subst hg; exact hff
  · split at h
    · exact Option.noConfusion h
    · split at h
      · simp only [Option.some.injEq, Prod.mk.injEq] at h
        obtain ⟨hg, _⟩ := h
        subst hg; exact hff
      · split at h
        · split at h
          · simp only [Option.some.injEq, Prod.mk.injEq] at h
            obtain ⟨hg, _⟩ := h
            subst hg; exact hff
          · split at h
            · exact Option.noConfusion h
            · simp only [Option.some.injEq, Prod.mk.injEq] at h
              obtain ⟨hg, _⟩ := h
              subst hg
              exact flagFalseAtL_setRoomFlag _ _ _ _ _ hff
        · split at h
          · exact Option.noConfusion h
          · simp only [Option.some.injEq, Prod.mk.injEq] at h
            obtain ⟨hg, _⟩ := h
            subst hg; exact hff

lemma cmd_take_flagFalse (g : Game) (t : Option String) (g1 : Game) (out : List String)
    (rk f : String) (hff : flagFalseAt g rk f) (h : cmd_take g t = some (g1, out)) :
    flagFalseAt g1 rk f := by
  unfold cmd_take at h
  split at h
  · simp only [Option.some.injEq, Prod.mk.injEq] at h
    obtain ⟨hg, _⟩ := h
    subst hg; exact hff
  · split at h
    · exact Option.noConfusion h
    · split at h
      · simp only [Option.some.injEq, Prod.mk.injEq] at h
        obtain ⟨hg, _⟩ := h
        subst hg; exact hff
      · split at h
        · simp only [Option.some.injEq, Prod.mk.injEq] at h
          obtain ⟨hg, _⟩ := h
          subst hg; exact hff
        · split at h
          · exact Option.noConfusion h
          · simp only [Option.some.injEq, Prod.mk.injEq] at h
            obtain ⟨hg, _⟩ := h
            subst hg
            exact flagFalseAtL_modify _ _ _ _ _ hff

lemma cmd_drop_flagFalse (g : Game) (t : Option String) (g1 : Game) (out : List String)
    (rk f : String) (hff : flagFalseAt g rk f) (h : cmd_drop g t = some (g1, out)) :
    flagFalseAt g1 rk f := by
  unfold cmd_drop at h
  split at h
  · simp only [Option.some.injEq, Prod.mk.injEq] at h
    obtain ⟨hg, _⟩ := h
    subst hg; exact hff
  · split at h
    · simp only [Option.some.injEq, Prod.mk.injEq] at h
      obtain ⟨hg, _⟩ := h
      subst hg; exact hff
    · split at h
      · exact Option.noConfusion h
      · split at h
        · exact Option.noConfusion h
        · simp only [Option.some.injEq, Prod.mk.injEq] at h
          obtain ⟨hg, _⟩ := h
          subst hg
          exact flagFalseAtL_modify _ _ _ _ _ hff

lemma cmd_use_flagFalse (g : Game) (t : Option String) (g1 : Game) (out : List String)
    (rk f : String) (hff : flagFalseAt g rk f) (h : cmd_use g t = some (g1, out)) :
    flagFalseAt g1 rk f := by
  unfold cmd_use at h
  split at h
  · simp only [Option.some.injEq, Prod.mk.injEq] at h
    obtain ⟨hg, _⟩ := h
    subst hg; exact hff
  · split at h
    · simp only [Option.some.injEq, Prod.mk.injEq] at h
      obtain ⟨hg, _⟩ := h
      subst hg; exact hff
    · split at h
      · exact Option.noConfusion h
      · split at h
        · split at h
          · exact Option.noConfusion h
          · simp only [Option.some.injEq, Prod.mk.injEq] at h
            obtain ⟨hg, _⟩ := h
            subst hg; exact hff
        · split at h
          · split at h
            · split at h
              · exact Option.noConfusion h
              · split at h
                · split at h
                  · simp only [Option.some.injEq, Prod.mk.injEq] at h
                    obtain ⟨hg, _⟩ := h
                    subst hg
                    exact flagFalseAtL_setRoomFlag _ _ _ _ _ hff
                  · simp only [Option.some.injEq, Prod.mk.injEq] at h
                    obtain ⟨hg, _⟩ := h
                    subst hg; exact hff
                · simp only [Option.some.injEq, Prod.mk.injEq] at h
                  obtain ⟨hg, _⟩ := h
                  subst hg; exact hff
            · simp only [Option.some.injEq, Prod.mk.injEq] at h
              obtain ⟨hg, _⟩ := h
              subst hg; exact hff
          · simp only [Option.some.injEq, Prod.mk.injEq] at h
            obtain ⟨hg, _⟩ := h
            subst hg; exact hff

lemma step_preserves_flagFalse (g : Game) (op : Op) (g1 : Game) (rk f : String)
    (hnl : noLoad op = true) (hff : flagFalseAt g rk f) (hstep : step g op = some g1) :
    flagFalseAt g1 rk f := by
  match op with
  | .look =>
    unfold step at hstep
    dsimp only at hstep
    cases hl : cmd_look g with
    | none => rw [hl] at hstep; cases hstep
    | some out =>
      rw [hl] at hstep
      simp only [Option.map_some', Option.some.injEq] at hstep
      subst hstep; exact hff
  | .go d =>
    unfold step at hstep
    dsimp only at hstep
    cases hc : cmd_go g d with
    | none => rw [hc] at hstep; cases hstep
    | some p =>
      rw [hc] at hstep
      simp only [Option.map_some', Option.some.injEq] at hstep
      subst hstep
      exact cmd_go_flagFalse g d p.1 p.2 rk f hff (by rw [hc])
  | .take t =>
    unfold step at hstep
    dsimp only at hstep
    cases hc : cmd_take g t with
    | none => rw [hc] at hstep; cases hstep
    | some p =>
      rw [hc] at hstep
      simp only [Option.map_some', Option.some.injEq] at hstep
      subst hstep
      exact cmd_take_flagFalse g t p.1 p.2 rk f hff (by rw [hc])
  | .dropIt t =>
    unfold step at hstep
    dsimp only at hstep
    cases hc : cmd_drop g t with
    | none => rw [hc] at hstep; cases hstep
    | some p =>
      rw [hc] at hstep
      simp only [Option.map_some', Option.some.injEq] at hstep
      subst hstep
      exact cmd_drop_flagFalse g t p.1 p.2 rk f hff (by rw [hc])
  | .inv =>
    unfold step at hstep
    dsimp only at hstep
    simp only [Option.some.injEq] at hstep
    subst hstep; exact hff
  | .useIt t =>
    unfold step at hstep
    dsimp only at hstep
    cases hc : cmd_use g t with
    | none => rw [hc] at hstep; cases hstep
    | some p =>
      rw [hc] at hstep
      simp only [Option.map_some', Option.some.injEq] at hstep
      subst hstep
      exact cmd_use_flagFalse g t p.1 p.2 rk f hff (by rw [hc])
  | .save =>
    unfold step at hstep
    dsimp only at hstep
    simp only [Option.some.injEq] at hstep
    subst hstep; exact hff
  | .load fr => simp [noLoad] at hnl

lemma steps_preserve_flagFalse (ops : List Op) :
    ∀ g g1 rk f, (∀ o ∈ ops, noLoad o = true) → flagFalseAt g rk f →
      steps g ops = some g1 → flagFalseAt g1 rk f := by
  induction ops with
  | nil =>
    intro g g1 rk f _ hff hrun
    unfold steps at hrun
    simp only [Option.some.injEq] at hrun
    subst hrun; exact hff
  | cons op rest ih =>
    intro g g1 rk f hnl hff hrun
    unfold steps at hrun
    cases hs : step g op with
    | none => rw [hs] at hrun; cases hrun
    | some gm =>
      rw [hs] at hrun
      have h1 : flagFalseAt gm rk f :=
        step_preserves_flagFalse g op gm rk f (hnl op (List.mem_cons_self _ _)) hff hs
      exact ih gm g1 rk f (fun o ho => hnl o (List.mem_cons_of_mem _ ho)) h1 hrun

lemma removeFirst_count_self (l : List String) (key : String) (h : key ∈ l) :
    (removeFirst l key).count key + 1 = l.count key := by
  induction l with
  | nil => cases h
  | cons x xs ih =>
    unfold removeFirst
    by_cases hx : x = key
    · subst hx
      simp [List.count_cons]
    · rw [if_neg (by simpa using hx)]
      have hmem : key ∈ xs := by
        rcases List.mem_cons.mp h with hh | ht
        · exact absurd hh.symm hx
        · exact ht
      have := ih hmem
      simp only [List.count_cons]
      have hne : (x == key) = false := by simpa using hx
      simp [hne]
      omega

lemma removeFirst_count_ne (l : List String) (key k : String) (h : k ≠ key) :
    (removeFirst l key).count k = l.count k := by
  induction l with
  | nil => rfl
  | cons x xs ih =>
    unfold removeFirst
    by_cases hx : x = key
    · subst hx
      have hne : (x == k) = false := by simpa using fun hc => h hc.symm
      simp [List.count_cons, hne]
    · rw [if_neg (by simpa using hx)]
      simp [List.count_cons, ih]

lemma removeFirst_append_notMem (pre rest : List String) (key : String) (h : key ∉ pre) :
    removeFirst (pre ++ key :: rest) key = pre ++ rest := by
  induction pre with
  | nil => simp [removeFirst]
  | cons x xs ih =>
    have hx : ¬(x = key) := fun hc => h (hc ▸ List.mem_cons_self x xs)
    have hxs : key ∉ xs := fun hc => h (List.mem_cons_of_mem _ hc)
    simp only [List.cons_append, removeFirst]
    rw [if_neg (by simpa using hx)]
    show x :: removeFirst (xs ++ key :: rest) key = x :: (xs ++ rest)
    rw [ih hxs]

lemma roomsCount_modify (rooms : List (String × Room)) (loc : String) (cur : Room)
    (fn : List String → List String) (k : String)
    (hl : lookupS rooms loc = some cur) :
    roomsCount (modifyRoomItems rooms loc fn) k + cur.items.count k =
      roomsCount rooms k + (fn cur.items).count k := by
  induction rooms with
  | nil => cases hl
  | cons p rest ih =>
    obtain ⟨k0, r0⟩ := p
    unfold lookupS at hl
    by_cases hk : k0 = loc
    · rw [if_pos (by simpa using hk)] at hl
      injection hl with hl
      subst hl
      unfold modifyRoomItems
      rw [if_pos (by simpa using hk)]
      unfold roomsCount
      dsimp only
      omega
    · rw [if_neg (by simpa using hk)] at hl
      unfold modifyRoomItems
      rw [if_neg (by simpa using hk)]
      unfold roomsCount
      have := ih hl
      omega

lemma findFirstMatch_mem (w : World) (tok : String) (l : List String) (key : String)
    (hkc : itemsKeyConsistent w = true) (h : findFirstMatch w tok l = some key) :
    key ∈ l := by
  induction l with
  | nil => cases h
  | cons k rest ih =>
    unfold findFirstMatch at h
    cases hkl : lookupS w.items k with
    | none =>
      rw [hkl] at h
      exact List.mem_cons_of_mem _ (ih h)
    | some it =>
      rw [hkl] at h
      have h2 : (if (strLower it.key == tok || strLower it.name == tok) = true
          then some it.key else findFirstMatch w tok rest) = some key := h
      by_cases hcond : (strLower it.key == tok || strLower it.name == tok) = true
      · rw [if_pos hcond] at h2
        injection h2 with h2
        subst h2
        rw [itemsKC_lookup w k it hkc hkl]
        exact List.mem_cons_self _ _
      · rw [if_neg hcond] at h2
        exact List.mem_cons_of_mem _ (ih h2)

lemma roomsCount_pos_iff (rooms : List (String × Room)) (k : String) :
    0 < roomsCount rooms k ↔ k ∈ roomKeysList rooms := by
  induction rooms with
  | nil => simp [roomsCount, roomKeysList]
  | cons p rest ih =>
    obtain ⟨k0, r⟩ := p
    unfold roomsCount roomKeysList
    rw [List.mem_append, ← ih]
    constructor
    · intro h
      by_cases h1 : 0 < r.items.count k
      · exact Or.inl (List.count_pos_iff.mp h1)
      · right; omega
    · intro h
      rcases h with h | h
      · have := List.count_pos_iff.mpr h
        omega
      · omega

lemma containerCount_pos_iff (g : Game) (k : String) :
    0 < containerCount g k ↔ k ∈ allItemKeys g := by
  unfold containerCount allItemKeys
  rw [List.mem_append, ← roomsCount_pos_iff]
  constructor
  · intro h
    by_cases h1 : 0 < roomsCount g.world.rooms k
    · exact Or.inl h1
    · right
      have h2 : 0 < g.player.inventory.count k := by omega
      exact List.count_pos_iff.mp h2
  · intro h
    rcases h with h | h
    · omega
    · have := List.count_pos_iff.mpr h
      omega

lemma containInv_transfer (g g1 : Game)
    (hitems : g1.world.items = g.world.items)
    (hcnt : ∀ k, containerCount g1 k = containerCount g k)
    (hinv : containInv g = true) : containInv g1 = true := by
  unfold containInv at *
  rw [List.all_eq_true] at *
  intro k hk
  have hpos : 0 < containerCount g1 k := (containerCount_pos_iff g1 k).mpr hk
  rw [hcnt k] at hpos
  have hmem : k ∈ allItemKeys g := (containerCount_pos_iff g k).mp hpos
  have := hinv k hmem
  simp only [Bool.and_eq_true, beq_iff_eq] at this ⊢
  rw [hcnt k, hitems]
  exact this

lemma cmd_take_counts (g : Game) (t : Option String) (g1 : Game) (out : List String)
    (hkc : itemsKeyConsistent g.world = true) (h : cmd_take g t = some (g1, out)) :
    (∀ k, containerCount g1 k = containerCount g k) ∧ g1.world.items = g.world.items := by
  unfold cmd_take at h
  split at h
  · simp only [Option.some.injEq, Prod.mk.injEq] at h
    obtain ⟨hg, _⟩ := h
    subst hg; exact ⟨fun _ => rfl, rfl⟩
  · split at h
    · exact Option.noConfusion h
    · rename_i token x room hroom
      split at h
      · simp only [Option.some.injEq, Prod.mk.injEq] at h
        obtain ⟨hg, _⟩ := h
        subst hg; exact ⟨fun _ => rfl, rfl⟩
      · rename_i key hfind
        split at h
        · simp only [Option.some.injEq, Prod.mk.injEq] at h
          obtain ⟨hg, _⟩ := h
          subst hg; exact ⟨fun _ => rfl, rfl⟩
        · split at h
          · exact Option.noConfusion h
          · simp only [Option.some.injEq, Prod.mk.injEq] at h
            obtain ⟨hg, _⟩ := h
            subst hg
            refine ⟨?_, rfl⟩
            intro k
            have hmem : key ∈ room.items := findFirstMatch_mem _ _ _ _ hkc hfind
            have hmod := roomsCount_modify g.world.rooms g.player.location room
              (fun l => removeFirst l key) k hroom
            unfold containerCount
            by_cases hks : k = key
            · subst hks
              have hrc := removeFirst_count_self room.items k hmem
              have happ : (g.player.inventory ++ [k]).count k =
                  g.player.inventory.count k + 1 := by
                rw [List.count_append]
                simp
              simp only at hmod ⊢
              omega
            · have hrc := removeFirst_count_ne room.items key k hks
              have happ : (g.player.inventory ++ [key]).count k =
                  g.player.inventory.count k := by
                rw [List.count_append]
                have : (key == k) = false := by simpa using fun hc => hks hc.symm
                simp [List.count_cons, this]
              simp only at hmod ⊢
              omega

lemma cmd_drop_counts (g : Game) (t : Option String) (g1 : Game) (out : List String)
    (hkc : itemsKeyConsistent g.world = true) (h : cmd_drop g t = some (g1, out)) :
    (∀ k, containerCount g1 k = containerCount g k) ∧ g1.world.items = g.world.items := by
  unfold cmd_drop at h
  split at h
  · simp only [Option.some.injEq, Prod.mk.injEq] at h
    obtain ⟨hg, _⟩ := h
    subst hg; exact ⟨fun _ => rfl, rfl⟩
  · rename_i token
    split at h
    · simp only [Option.some.injEq, Prod.mk.injEq] at h
      obtain ⟨hg, _⟩ := h
      subst hg; exact ⟨fun _ => rfl, rfl⟩
    · rename_i key hfind
      split at h
      · exact Option.noConfusion h
      · rename_i room hroom
        split at h
        · exact Option.noConfusion h
        · simp only [Option.some.injEq, Prod.mk.injEq] at h
          obtain ⟨hg, _⟩ := h
          subst hg
          refine ⟨?_, rfl⟩
          intro k
          have hmem : key ∈ g.player.inventory :=
            findFirstMatch_mem _ _ _ _ hkc hfind
          have hmod := roomsCount_modify g.world.rooms g.player.location room
            (fun l => l ++ [key]) k hroom
          unfold containerCount
          by_cases hks : k = key
          · subst hks
            have hrc := removeFirst_count_self g.player.inventory k hmem
            have happ : (room.items ++ [k]).count k = room.items.count k + 1 := by
              rw [List.count_append]
              simp
            simp only at hmod ⊢
            omega
          · have hrc := removeFirst_count_ne g.player.inventory key k hks
            have happ : (room.items ++ [key]).count k = room.items.count k := by
              rw [List.count_append]
              have : (key == k) = false := by simpa using fun hc => hks hc.symm
              simp [List.count_cons, this]
            simp only at hmod ⊢
            omega

lemma step_takedrop_counts (g : Game) (op : Op) (g1 : Game)
    (htd : isTakeDrop op = true) (hkc : itemsKeyConsistent g.world = true)
    (hstep : step g op = some g1) :
    (∀ k, containerCount g1 k = containerCount g k) ∧ g1.world.items = g.world.items := by
  match op with
  | .take t =>
    unfold step at hstep
    dsimp only at hstep
    cases hc : cmd_take g t with
    | none => rw [hc] at hstep; cases hstep
    | some p =>
      rw [hc] at hstep
      simp only [Option.map_some', Option.some.injEq] at hstep
      subst hstep
      exact cmd_take_counts g t p.1 p.2 hkc (by rw [hc])
  | .dropIt t =>
    unfold step at hstep
    dsimp only at hstep
    cases hc : cmd_drop g t with
    | none => rw [hc] at hstep; cases hstep
    | some p =>
      rw [hc] at hstep
      simp only [Option.map_some', Option.some.injEq] at hstep
      subst hstep
      exact cmd_drop_counts g t p.1 p.2 hkc (by rw [hc])
  | .look => simp [isTakeDrop] at htd
  | .go d => simp [isTakeDrop] at htd
  | .inv => simp [isTakeDrop] at htd
  | .useIt t => simp [isTakeDrop] at htd
  | .save => simp [isTakeDrop] at htd
  | .load fr => simp [isTakeDrop] at htd

lemma findFirstMatch_first (w : World) (token : String) (pre rest : List String)
    (key : String) (it : Item)
    (hpre : ∀ k ∈ pre, matchesLow w token k = false)
    (hit : lookupS w.items key = some it)
    (hmatch : (strLower it.key == token || strLower it.name == token) = true) :
    findFirstMatch w token (pre ++ key :: rest) = some it.key := by
  induction pre with
  | nil =>
    show findFirstMatch w token (key :: rest) = some it.key
    simp [findFirstMatch, hit, hmatch]
  | cons k0 p ih =>
    have h0 := hpre k0 (List.mem_cons_self _ _)
    unfold matchesLow at h0
    have ih2 := ih fun k hk => hpre k (List.mem_cons_of_mem _ hk)
    cases hkl : lookupS w.items k0 with
    | none =>
      show findFirstMatch w token (k0 :: (p ++ key :: rest)) = some it.key
      simp only [findFirstMatch, hkl]
      exact ih2
    | some it0 =>
      rw [hkl] at h0
      show findFirstMatch w token (k0 :: (p ++ key :: rest)) = some it.key
      simp only [findFirstMatch]
      rw [hkl]
      show (if (strLower it0.key == token || strLower it0.name == token) = true
        then some it0.key else findFirstMatch w token (p ++ key :: rest)) = some it.key
      have h0b : (strLower it0.key == token || strLower it0.name == token) = false := h0
      rw [h0b, if_neg (by simp)]
      exact ih2

end Lemmas

/-- C1: for every game state with the data model's unique room keys and a
resolvable current room, `save` followed by `load` of the same path (no
mutation in between) succeeds and restores exactly the state at save time —
the very same `Game`, hence an identical Player and identical per-room
`items` and `flags` for every room that existed at save time. -/
theorem save_load_roundtrip (g : Game)
    (hnd : (g.world.rooms.map Prod.fst).Nodup)
    (hloc : (current_room g).isSome) :
    ∃ out, loadGame g "save.json" (savedFile g) = some (g, Except.ok out) := by
  have hrt := applySnapshot_mkSnapshot g hnd
  obtain ⟨out, hout⟩ := cmd_look_isSome g hloc
  refine ⟨("Juego cargado desde save.json") :: out, ?_⟩
  simp [loadGame, savedFile, hrt, hout]

/-- Witness for C1 at the startup state built by `build_world`. -/
theorem save_load_roundtrip_witness :
    ∃ out, loadGame buildGame "save.json" (savedFile buildGame) = some (buildGame, Except.ok out) :=
  save_load_roundtrip buildGame (by decide) (by decide)

/-- C3: a failed `load` — nonexistent path, unreadable file, or content that
does not parse as a snapshot — returns the corresponding error and leaves
the whole game state (Player and every room's `items` and `flags`) exactly
as it was; the snapshot is applied only in the fully-parsed case. -/
theorem load_failure_frame (g : Game) (path : String) :
    loadGame g path FileRead.notFound = some (g, Except.error LoadErr.notFound)
    ∧ loadGame g path FileRead.ioErr = some (g, Except.error LoadErr.ioErr)
    ∧ loadGame g path FileRead.parseErr = some (g, Except.error LoadErr.parseErr) :=
  ⟨rfl, rfl, rfl⟩

/-- C9: `take` of an item that is present in the current room (it is what
the room matcher found for the token) but whose `portable` flag is false
reports the cannot-carry message and returns the state completely
unchanged. -/
theorem take_nonportable (g : Game) (tok key : String)
    (hfind : find_item_here g tok = some key)
    (hport : ((lookupS g.world.items key).map Item.portable).getD false = false) :
    cmd_take g (some tok) = some (g, ["No puedes cargar eso."]) := by
  unfold find_item_here at hfind
  match hroom : current_room g with
  | none => rw [hroom] at hfind; cases hfind
  | some room =>
    rw [hroom] at hfind
    have hfind2 : findFirstMatch g.world (strLower tok) room.items = some key := hfind
    simp [cmd_take, hroom, hfind2, hport]

/-- Witness for C9: taking the altar in the ancient chamber. -/
theorem take_nonportable_witness :
    cmd_take gChamber (some "altar") = some (gChamber, ["No puedes cargar eso."]) :=
  take_nonportable gChamber "altar" "altar" (by decide) (by decide)

/-- C6: `cmd_look` is a pure read of the state whose output depends only on
the resolved room, the world content, and the light condition recomputed at
call time: two states resolving to the same room in the same world with the
same `has_light` value look identical; with the `dark` flag and no light the
output is exactly the fixed darkness line plus the exit list (no room name,
description or items); with light (or no darkness) it is the full view. -/
theorem look_recomputes_light (g1 g2 : Game) (room : Room)
    (h1 : current_room g1 = some room) (h2 : current_room g2 = some room)
    (hw : g1.world = g2.world) :
    (has_light g1 = has_light g2 → cmd_look g1 = cmd_look g2)
    ∧ (flagOf room "dark" = true → has_light g1 = false →
        cmd_look g1 = some ["Está muy oscuro. Apenas distingues siluetas.", exitsLine room])
    ∧ (flagOf room "dark" = false ∨ has_light g1 = true →
        cmd_look g1 = some (["\n" ++ room.name, underlineOf room.name, room.desc]
          ++ itemsLines g1.world room ++ [exitsLine room])) := by
  refine ⟨?_, ?_, ?_⟩
  · intro hl
    unfold cmd_look
    rw [h1, h2, hl, hw]
  · intro hd hlight
    simp [cmd_look, h1, hd, hlight]
  · intro hcase
    rcases hcase with hd | hl
    · simp [cmd_look, h1, hd]
    · simp [cmd_look, h1, hl]

/-- Witness for C6: the dark narrow passage, once holding the torch and once
empty-handed — same room, same flags, two different outputs driven solely by
the current inventory. -/
theorem look_recomputes_light_witness :
    (has_light gPassageTorch = has_light gPassageBare →
      cmd_look gPassageTorch = cmd_look gPassageBare)
    ∧ (flagOf narrowPassageRoom "dark" = true → has_light gPassageTorch = false →
        cmd_look gPassageTorch =
          some ["Está muy oscuro. Apenas distingues siluetas.", exitsLine narrowPassageRoom])
    ∧ (flagOf narrowPassageRoom "dark" = false ∨ has_light gPassageTorch = true →
        cmd_look gPassageTorch =
          some (["\n" ++ narrowPassageRoom.name, underlineOf narrowPassageRoom.name,
              narrowPassageRoom.desc]
            ++ itemsLines gPassageTorch.world narrowPassageRoom ++ [exitsLine narrowPassageRoom])) :=
  look_recomputes_light gPassageTorch gPassageBare narrowPassageRoom
    (by decide) (by decide) (by decide)

/-- C4: at a locked exit (flag `locked_<dir>` true on the current room),
`go` without an inventory item whose `unlocks` value is exactly
`<current-room-key>:<direction>` is refused with the blocked message and the
state is returned unchanged; with such an item held, the move proceeds to
the destination, the one-time unlocked message heads the output, the flag is
now false on the player's former room, and it stays false across any
sequence of further non-`load` operations. -/
theorem go_locked_exit (g : Game) (d : String) (cur : Room) (dest : String)
    (hkc : roomsKeyConsistent g.world = true)
    (hcur : current_room g = some cur)
    (hexit : lookupS cur.exits (strLower d) = some dest)
    (hlock : flagOf cur ("locked_" ++ strLower d) = true) :
    (canUnlock g cur.key (strLower d) = false →
      cmd_go g (some d) = some (g, ["La salida está bloqueada."]))
    ∧ (canUnlock g cur.key (strLower d) = true →
        (lookupS g.world.rooms dest).isSome = true →
        ∃ g1 out,
          cmd_go g (some d) = some (g1, "Usas la llave y desbloqueas la salida." :: out)
          ∧ g1.player.location = dest
          ∧ g1.world.rooms = setRoomFlag g.world.rooms cur.key ("locked_" ++ strLower d) false
          ∧ flagFalseAt g1 g.player.location ("locked_" ++ strLower d)
          ∧ (∀ ops g2, (∀ o ∈ ops, noLoad o = true) → steps g1 ops = some g2 →
              flagFalseAt g2 g.player.location ("locked_" ++ strLower d))) := by
  have hkey : cur.key = g.player.location := roomsKC_lookup g.world _ cur hkc hcur
  constructor
  · intro hu
    simp [cmd_go, hcur, hexit, hlock, hu]
  · intro hu hdest
    have hv : (lookupS (setRoomFlag g.world.rooms cur.key ("locked_" ++ strLower d) false)
        dest).isSome = true := isSome_after_setFlag _ _ _ _ _ hdest
    obtain ⟨out, hout⟩ := cmd_look_isSome
      { g with
        world := { g.world with
          rooms := setRoomFlag g.world.rooms cur.key ("locked_" ++ strLower d) false },
        player := { g.player with location := dest } } hv
    refine ⟨{ g with
        world := { g.world with
          rooms := setRoomFlag g.world.rooms cur.key ("locked_" ++ strLower d) false },
        player := { g.player with location := dest } }, out, ?_, rfl, rfl, ?_, ?_⟩
    · simp [cmd_go, hcur, hexit, hlock, hu, hout]
    · show flagFalseAtL (setRoomFlag g.world.rooms cur.key ("locked_" ++ strLower d) false)
        g.player.location ("locked_" ++ strLower d)
      rw [← hkey]
      exact flagFalseAtL_set_self _ _ _
    · intro ops g2 hops hrun
      refine steps_preserve_flagFalse ops _ g2 _ _ hops ?_ hrun
      show flagFalseAtL (setRoomFlag g.world.rooms cur.key ("locked_" ++ strLower d) false)
        g.player.location ("locked_" ++ strLower d)
      rw [← hkey]
      exact flagFalseAtL_set_self _ _ _

/-- Witness for C4: the player in the narrow passage holding the gate key,
going north toward the locked gate. -/
theorem go_locked_exit_witness :
    (canUnlock gPassageKey narrowPassageRoom.key (strLower "north") = false →
      cmd_go gPassageKey (some "north") = some (gPassageKey, ["La salida está bloqueada."]))
    ∧ (canUnlock gPassageKey narrowPassageRoom.key (strLower "north") = true →
        (lookupS gPassageKey.world.rooms "ancient_chamber").isSome = true →
        ∃ g1 out,
          cmd_go gPassageKey (some "north") =
            some (g1, "Usas la llave y desbloqueas la salida." :: out)
          ∧ g1.player.location = "ancient_chamber"
          ∧ g1.world.rooms =
              setRoomFlag gPassageKey.world.rooms narrowPassageRoom.key
                ("locked_" ++ strLower "north") false
          ∧ flagFalseAt g1 gPassageKey.player.location ("locked_" ++ strLower "north")
          ∧ (∀ ops g2, (∀ o ∈ ops, noLoad o = true) → steps g1 ops = some g2 →
              flagFalseAt g2 gPassageKey.player.location ("locked_" ++ strLower "north"))) :=
  go_locked_exit gPassageKey "north" narrowPassageRoom "ancient_chamber"
    (by decide) (by decide) (by decide) (by decide)

/-- C5: `use` on a carried item (the inventory matcher's result) whose
effects lack `lights` but have `unlocks` yields exactly one of the four
outcomes: value splits into the current room's key and a direction with the
lock flag true — flag cleared (read back false) and the unlock reported;
same split but flag already false — "nothing to unlock here", state
unchanged; split names another room — "does not work here", state unchanged;
value does not split into exactly two parts — configuration error, state
unchanged.  A `lights` effect, when present, takes priority over `unlocks`
and leaves the state unchanged. -/
theorem use_unlock_outcomes (g : Game) (tok key : String) (it : Item) (cur : Room)
    (hkc : roomsKeyConsistent g.world = true)
    (hfind : find_item_inventory g tok = some key)
    (hit : lookupS g.world.items key = some it)
    (hcur : current_room g = some cur) :
    ((lookupS it.effects "lights").isSome = true →
      ∃ out, cmd_look g = some out ∧
        cmd_use g (some tok) =
          some (g, ("Alzas " ++ it.name ++ ". La luz revela tu entorno.") :: out))
    ∧ (∀ tag, lookupS it.effects "lights" = none → lookupS it.effects "unlocks" = some tag →
        (∀ dir, splitChar tag ':' = [cur.key, dir] →
          (flagOf cur ("locked_" ++ dir) = true →
            cmd_use g (some tok) =
              some ({ g with world := { g.world with
                  rooms := setRoomFlag g.world.rooms cur.key ("locked_" ++ dir) false } },
                ["Usas " ++ it.name ++ " y desbloqueas la salida " ++ dir ++ "."])
            ∧ flagFalseAtL (setRoomFlag g.world.rooms cur.key ("locked_" ++ dir) false)
                g.player.location ("locked_" ++ dir))
          ∧ (flagOf cur ("locked_" ++ dir) = false →
              cmd_use g (some tok) = some (g, ["Aquí no hay nada que desbloquear."])))
        ∧ (∀ rkey dir, splitChar tag ':' = [rkey, dir] → rkey ≠ cur.key →
            cmd_use g (some tok) = some (g, ["No parece servir aquí."]))
        ∧ ((splitChar tag ':').length ≠ 2 →
            cmd_use g (some tok) = some (g, ["La llave no está bien configurada."]))) := by
  have hkey : cur.key = g.player.location := roomsKC_lookup g.world _ cur hkc hcur
  constructor
  · intro hl
    obtain ⟨out, hout⟩ := cmd_look_isSome g (by simp [hcur])
    refine ⟨out, hout, ?_⟩
    simp [cmd_use, hfind, hit, hl, hout]
  · intro tag hnl htag
    refine ⟨?_, ?_, ?_⟩
    · intro dir hsplit
      constructor
      · intro hflag
        constructor
        · simp [cmd_use, hfind, hit, hnl, htag, hsplit, hcur, hflag]
        · rw [← hkey]
          exact flagFalseAtL_set_self _ _ _
      · intro hflag
        simp [cmd_use, hfind, hit, hnl, htag, hsplit, hcur, hflag]
    · intro rkey dir hsplit hne
      simp [cmd_use, hfind, hit, hnl, htag, hsplit, hcur, hne]
    · intro hlen
      rcases hsp : splitChar tag ':' with _ | ⟨a, _ | ⟨b, _ | ⟨c, t⟩⟩⟩
      · simp [cmd_use, hfind, hit, hnl, htag, hsp]
      · simp [cmd_use, hfind, hit, hnl, htag, hsp]
      · exact absurd (by rw [hsp]; rfl) hlen
      · simp [cmd_use, hfind, hit, hnl, htag, hsp]

/-- Witness for C5: using the gate key in the narrow passage. -/
theorem use_unlock_outcomes_witness :
    ((lookupS keyGateItem.effects "lights").isSome = true →
      ∃ out, cmd_look gPassageKey = some out ∧
        cmd_use gPassageKey (some "key_gate") =
          some (gPassageKey,
            ("Alzas " ++ keyGateItem.name ++ ". La luz revela tu entorno.") :: out))
    ∧ (∀ tag, lookupS keyGateItem.effects "lights" = none →
        lookupS keyGateItem.effects "unlocks" = some tag →
        (∀ dir, splitChar tag ':' = [narrowPassageRoom.key, dir] →
          (flagOf narrowPassageRoom ("locked_" ++ dir) = true →
            cmd_use gPassageKey (some "key_gate") =
              some ({ gPassageKey with world := { gPassageKey.world with
                  rooms := setRoomFlag gPassageKey.world.rooms narrowPassageRoom.key
                    ("locked_" ++ dir) false } },
                ["Usas " ++ keyGateItem.name ++ " y desbloqueas la salida " ++ dir ++ "."])
            ∧ flagFalseAtL
                (setRoomFlag gPassageKey.world.rooms narrowPassageRoom.key
                  ("locked_" ++ dir) false)
                gPassageKey.player.location ("locked_" ++ dir))
          ∧ (flagOf narrowPassageRoom ("locked_" ++ dir) = false →
              cmd_use gPassageKey (some "key_gate") =
                some (gPassageKey, ["Aquí no hay nada que desbloquear."])))
        ∧ (∀ rkey dir, splitChar tag ':' = [rkey, dir] → rkey ≠ narrowPassageRoom.key →
            cmd_use gPassageKey (some "key_gate") =
              some (gPassageKey, ["No parece servir aquí."]))
        ∧ ((splitChar tag ':').length ≠ 2 →
            cmd_use gPassageKey (some "key_gate") =
              some (gPassageKey, ["La llave no está bien configurada."]))) :=
  use_unlock_outcomes gPassageKey "key_gate" "key_gate" keyGateItem narrowPassageRoom
    (by decide) (by decide) (by decide) (by decide)

/-- C2: from any initial state conforming to the data model (the world item
mapping is keyed by the item's own key) and satisfying the containment
invariant, any sequence of `take` and `drop` operations preserves it: every
item key present in any room's `items` or in the inventory exists in the
world item mapping and sits in exactly one container — total multiplicity
one across all room lists plus the inventory, which also rules out duplicate
inventory keys. -/
theorem takedrop_containment (g : Game) (ops : List Op) (g1 : Game)
    (hkc : itemsKeyConsistent g.world = true)
    (hinv : containInv g = true)
    (hops : ∀ o ∈ ops, isTakeDrop o = true)
    (hrun : steps g ops = some g1) : containInv g1 = true := by
  induction ops generalizing g with
  | nil =>
    unfold steps at hrun
    simp only [Option.some.injEq] at hrun
    subst hrun; exact hinv
  | cons op rest ih =>
    unfold steps at hrun
    cases hs : step g op with
    | none => rw [hs] at hrun; cases hrun
    | some gm =>
      rw [hs] at hrun
      obtain ⟨hcnt, hitems⟩ :=
        step_takedrop_counts g op gm (hops op (List.mem_cons_self _ _)) hkc hs
      have hkc2 : itemsKeyConsistent gm.world = true := by
        unfold itemsKeyConsistent at *
        rw [hitems]; exact hkc
      have hinv2 : containInv gm = true := containInv_transfer g gm hitems hcnt hinv
      exact ih gm hkc2 hinv2 (fun o ho => hops o (List.mem_cons_of_mem _ ho)) hrun

/-- Witness for C2: the initial world after taking the torch. -/
theorem takedrop_containment_witness : containInv gAfterTake = true :=
  takedrop_containment buildGame [Op.take (some "torch")] gAfterTake
    (by decide) (by decide) (by decide) (by decide)

/-- C10: when several items in the current room (or, for inventory commands,
in the inventory) match the token case-insensitively by key or display name,
the match resolves to the first matching entry in the container's list
order, and `take` removes exactly that first occurrence of the key from the
room list (later occurrences survive) while appending it to the
inventory. -/
theorem first_match_resolution (g : Game) (tok : String) (room : Room)
    (pre rest : List String) (key : String)
    (hkc : itemsKeyConsistent g.world = true)
    (hcur : current_room g = some room)
    (hsplit : room.items = pre ++ key :: rest)
    (hpre : ∀ k ∈ pre, matchesLow g.world (strLower tok) k = false)
    (hkey : matchesLow g.world (strLower tok) key = true) :
    find_item_here g tok = some key
    ∧ (∀ pre2 key2 rest2, g.player.inventory = pre2 ++ key2 :: rest2 →
        (∀ k ∈ pre2, matchesLow g.world (strLower tok) k = false) →
        matchesLow g.world (strLower tok) key2 = true →
        find_item_inventory g tok = some key2)
    ∧ (((lookupS g.world.items key).map Item.portable).getD false = true →
        ∃ it, lookupS g.world.items key = some it
        ∧ cmd_take g (some tok) =
            some ({ g with
              world := { g.world with
                rooms := modifyRoomItems g.world.rooms g.player.location
                    (fun l => removeFirst l key) },
              player := { g.player with inventory := g.player.inventory ++ [key] } },
              ["Tomaste " ++ it.name ++ "."])
        ∧ removeFirst room.items key = pre ++ rest) := by
  have hkey2 := hkey
  unfold matchesLow at hkey2
  cases hit : lookupS g.world.items key with
  | none => rw [hit] at hkey2; cases hkey2
  | some it =>
    rw [hit] at hkey2
    have hkk : it.key = key := itemsKC_lookup g.world key it hkc hit
    have hfind : findFirstMatch g.world (strLower tok) room.items = some key := by
      rw [hsplit]
      have := findFirstMatch_first g.world (strLower tok) pre rest key it hpre hit hkey2
      rw [hkk] at this
      exact this
    refine ⟨?_, ?_, ?_⟩
    · simp [find_item_here, hcur, hfind]
    · intro pre2 key2 rest2 hsplit2 hpre2 hkeyB
      unfold matchesLow at hkeyB
      cases hit2 : lookupS g.world.items key2 with
      | none => rw [hit2] at hkeyB; cases hkeyB
      | some it2 =>
        rw [hit2] at hkeyB
        have hkk2 : it2.key = key2 := itemsKC_lookup g.world key2 it2 hkc hit2
        unfold find_item_inventory
        rw [hsplit2]
        have := findFirstMatch_first g.world (strLower tok) pre2 rest2 key2 it2 hpre2 hit2 hkeyB
        rw [hkk2] at this
        exact this
    · intro hport
      have hp2 : it.portable = true := by simpa [hit] using hport
      refine ⟨it, rfl, ?_, ?_⟩
      · simp [cmd_take, hcur, hfind, hit, hp2]
      · have hnot : key ∉ pre := by
          intro hc
          have hf := hpre key hc
          rw [hkey] at hf
          cases hf
        rw [hsplit]
        exact removeFirst_append_notMem pre rest key hnot

/-- Witness for C10: two gems both displayed as "gema" behind an unrelated
stone; the token resolves to the first gem in the room and to the carried
gem in the inventory. -/
theorem first_match_resolution_witness :
    find_item_here gGems "gema" = some "gem1"
    ∧ (∀ pre2 key2 rest2, gGems.player.inventory = pre2 ++ key2 :: rest2 →
        (∀ k ∈ pre2, matchesLow gGems.world (strLower "gema") k = false) →
        matchesLow gGems.world (strLower "gema") key2 = true →
        find_item_inventory gGems "gema" = some key2)
    ∧ (((lookupS gGems.world.items "gem1").map Item.portable).getD false = true →
        ∃ it, lookupS gGems.world.items "gem1" = some it
        ∧ cmd_take gGems (some "gema") =
            some ({ gGems with
              world := { gGems.world with
                rooms := modifyRoomItems gGems.world.rooms gGems.player.location
                    (fun l => removeFirst l "gem1") },
              player := { gGems.player with
                inventory := gGems.player.inventory ++ ["gem1"] } },
              ["Tomaste " ++ it.name ++ "."])
        ∧ removeFirst hallRoom.items "gem1" = ["stone"] ++ ["gem2"]) :=
  first_match_resolution gGems "gema" hallRoom ["stone"] ["gem2"] "gem1"
    (by decide) (by decide) (by decide) (by decide) (by decide)

/-- C7 counterexample: the claim says current-room resolution never fails,
in particular after `load` replaces the Player wholesale.  Loading a
snapshot whose player location names no live room ("nowhere") makes the
engine fail to resolve the current room inside `load`'s final `look` — the
`expect("room not found")` panic, modelled by `none` — immediately after the
Player has been replaced. -/
theorem load_bad_location_fails :
    step buildGame (Op.load (FileRead.ok badSnap)) = none := by decide

/-- C7 amended: starting from a state whose location resolves (and any world
content), every engine operation that completes without panicking — look,
go, take, drop, inventory, use, save, and load included — again leaves the
player's location resolvable to an existing room.  (Completing is the
qualification the counterexample forces: a load whose snapshot names a
dangling location panics during its final look instead of returning.) -/
theorem step_preserves_locValid (g : Game) (op : Op) (g1 : Game)
    (hloc : locValid g) (hstep : step g op = some g1) : locValid g1 := by
  match op with
  | .look =>
    unfold step at hstep
    dsimp only at hstep
    cases hl : cmd_look g with
    | none => rw [hl] at hstep; cases hstep
    | some out =>
      rw [hl] at hstep
      simp only [Option.map_some', Option.some.injEq] at hstep
      subst hstep; exact hloc
  | .go d =>
    unfold step at hstep
    dsimp only at hstep
    cases hc : cmd_go g d with
    | none => rw [hc] at hstep; cases hstep
    | some p =>
      rw [hc] at hstep
      simp only [Option.map_some', Option.some.injEq] at hstep
      subst hstep
      exact cmd_go_locValid g d p.1 p.2 hloc (by rw [hc])
  | .take t =>
    unfold step at hstep
    dsimp only at hstep
    cases hc : cmd_take g t with
    | none => rw [hc] at hstep; cases hstep
    | some p =>
      rw [hc] at hstep
      simp only [Option.map_some', Option.some.injEq] at hstep
      subst hstep
      exact cmd_take_locValid g t p.1 p.2 hloc (by rw [hc])
  | .dropIt t =>
    unfold step at hstep
    dsimp only at hstep
    cases hc : cmd_drop g t with
    | none => rw [hc] at hstep; cases hstep
    | some p =>
      rw [hc] at hstep
      simp only [Option.map_some', Option.some.injEq] at hstep
      subst hstep
      exact cmd_drop_locValid g t p.1 p.2 hloc (by rw [hc])
  | .inv =>
    unfold step at hstep
    dsimp only at hstep
    simp only [Option.some.injEq] at hstep
    subst hstep; exact hloc
  | .useIt t =>
    unfold step at hstep
    dsimp only at hstep
    cases hc : cmd_use g t with
    | none => rw [hc] at hstep; cases hstep
    | some p =>
      rw [hc] at hstep
      simp only [Option.map_some', Option.some.injEq] at hstep
      subst hstep
      exact cmd_use_locValid g t p.1 p.2 hloc (by rw [hc])
  | .save =>
    unfold step at hstep
    dsimp only at hstep
    simp only [Option.some.injEq] at hstep
    subst hstep; exact hloc
  | .load fr =>
    unfold step at hstep
    dsimp only at hstep
    cases hc : loadGame g "save.json" fr with
    | none => rw [hc] at hstep; cases hstep
    | some p =>
      rw [hc] at hstep
      simp only [Option.map_some', Option.some.injEq] at hstep
      subst hstep
      exact loadGame_locValid g "save.json" fr p.1 p.2 hloc (by rw [hc])

/-- Witness for amended C7: after taking the torch from the entrance, the
location still resolves. -/
theorem step_preserves_locValid_witness : locValid gAfterTake :=
  step_preserves_locValid buildGame (Op.take (some "torch")) gAfterTake
    (by decide) (by decide)

set_option maxRecDepth 16384 in
/-- C8 (code bug support): `Game::save` writes with `std::fs::write`, an
in-place truncate followed by the data write.  Stopping (crashing) after the
truncation leaves file content that is neither the complete old content nor
the complete new content, so the write is not atomic from the caller's
perspective — evaluated here on the startup state over a nonempty previous
file. -/
theorem save_write_not_atomic :
    fileAfter "old content" ((saveWriteSteps buildGame).take 1) = ""
    ∧ fileAfter "old content" (saveWriteSteps buildGame) = serializeSave (mkSnapshot buildGame)
    ∧ "" ≠ "old content"
    ∧ "" ≠ serializeSave (mkSnapshot buildGame) := by
  refine ⟨by decide, by decide, by decide, by decide⟩
